import Mathlib

/-!
Verification of the firebase-functions auth provider core
(src/providers/auth.ts and src/event.ts): the user-event data
normalizer (`UserBuilder.dataConstructor`), the builder entry points
(`onCreate`, `onDelete`), the builder constructor (`user`), and the
raw event envelope (`FirebaseEvent`).

JavaScript values that can occur at the dynamically-typed payload
positions (`data.uid`, `data.metadata.createdAt`,
`data.metadata.lastSignedInAt`) are embedded as `JVal`.  A JS `Date`
object is represented by its parsed time value, `Option Int`
milliseconds, where `none` stands for an Invalid Date (NaN time
value).  `Date` string parsing is host-defined, so it is threaded
through as an explicit parameter `parseDate : String → Option Int`;
`new Date(s)` is embedded as `JVal.vDate (parseDate s)`.

The source mutates `raw.data` in place and returns it, and it can
throw a TypeError (calling `.substring` on a truthy non-string uid),
so the embedding returns `Except JsError UserData`: the returned
record is, by the in-place-mutation semantics of the source, also the
post-call contents of `raw.data`.
-/

/-- A JavaScript value at one of the dynamically-typed payload positions. -/
inductive JVal where
  | vStr (s : String)
  | vDate (t : Option Int)
  | vNum (n : Int)
  | vBool (b : Bool)
  | vNull
deriving DecidableEq, Repr

/-- JS truthiness of an optional property (`none` is `undefined`, falsy). -/
def jsTruthy : Option JVal → Bool
  | none => false
  | some (JVal.vStr s) => s ≠ ""
  | some (JVal.vDate _) => true
  | some (JVal.vNum n) => n ≠ 0
  | some (JVal.vBool b) => b
  | some JVal.vNull => false

/-- `typeof v === 'string'` on an optional property. -/
def jsTypeofString : Option JVal → Bool
  | some (JVal.vStr _) => true
  | _ => false

/-- JS `String.prototype.lastIndexOf` for a single character, on the
character list of the string: index of the last occurrence, `-1` when
absent. -/
def jsLastIndexOf (c : Char) : List Char → Int
  | [] => -1
  | x :: xs =>
    let r := jsLastIndexOf c xs
    if 0 ≤ r then r + 1
    else if x = c then 0 else -1

/-- JS `String.prototype.substring(i)` (single argument, `i ≥ 0` at the
call site in the source): the suffix from index `i`. -/
def jsSubstringFrom (l : List Char) (i : Int) : List Char :=
  l.drop i.toNat

/-- The uid canonicalization expression of the source:
`uid.substring(uid.lastIndexOf('/') + 1)`. -/
def jsCanonUid (s : String) : String :=
  ⟨jsSubstringFrom s.data (jsLastIndexOf '/' s.data + 1)⟩

/-- The nested `metadata` object of the wire payload: the two known
temporal fields, plus all its remaining properties untouched by the
normalizer. -/
structure Metadata where
  createdAt : Option JVal
  lastSignedInAt : Option JVal
  rest : List (String × JVal)
deriving DecidableEq, Repr

/-- The `raw.data` payload object: optional `uid`, optional `metadata`,
plus all remaining properties untouched by the normalizer. -/
structure UserData where
  uid : Option JVal
  metadata : Option Metadata
  rest : List (String × JVal)
deriving DecidableEq, Repr

/-- The raw event argument as consumed by the normalizer (only its
`data` property is accessed). -/
structure RawEvent where
  data : UserData
deriving DecidableEq, Repr

/-- A thrown JS runtime error. -/
inductive JsError where
  | typeError (msg : String)
deriving DecidableEq, Repr

instance {ε α : Type} [DecidableEq ε] [DecidableEq α] : DecidableEq (Except ε α) :=
  fun a b =>
    match a, b with
    | .error x, .error y =>
      if h : x = y then isTrue (by rw [h]) else isFalse (by intro hh; cases hh; exact h rfl)
    | .ok x, .ok y =>
      if h : x = y then isTrue (by rw [h]) else isFalse (by intro hh; cases hh; exact h rfl)
    | .error _, .ok _ => isFalse (by intro hh; cases hh)
    | .ok _, .error _ => isFalse (by intro hh; cases hh)

/-- One temporal-field statement of the source:
`if (metadata.f && typeof metadata.f === 'string') metadata.f = new Date(metadata.f)`. -/
def coerceField (parseDate : String → Option Int) (v : Option JVal) : Option JVal :=
  if jsTruthy v && jsTypeofString v then
    match v with
    | some (JVal.vStr s) => some (JVal.vDate (parseDate s))
    | w => w
  else v

/-- `provider` from src/providers/auth.ts. -/
def provider : String := "firebase.auth"

/-- Modelled from the spec: the Handler Descriptor produced by
`makeCloudFunction` (src/cloud-functions.ts is not in the source
tree).  Per the spec it binds provider id, resource string, event-type
string, the data normalizer, and the user callback; `H` is the type of
the user callback. -/
structure CloudFunction (H : Type) where
  provider : String
  resource : String
  eventType : String
  dataConstructor : (String → Option Int) → RawEvent → Except JsError UserData
  handler : H

/-- Modelled from the spec: `makeCloudFunction` packages its argument
fields into the immutable Handler Descriptor, with no other effect. -/
def makeCloudFunction {H : Type} (c : CloudFunction H) : CloudFunction H := c

/-- `UserBuilder` from src/providers/auth.ts: constructed with the one
bound resource string. -/
structure UserBuilder where
  resource : String
deriving DecidableEq, Repr

/-- `user()` from src/providers/auth.ts: reads the one process-wide
configuration value `process.env.GCLOUD_PROJECT` (passed here
explicitly as `gcloudProject`) and binds the builder's resource to
`'projects/' + process.env.GCLOUD_PROJECT`. -/
def user (gcloudProject : String) : UserBuilder :=
  ⟨"projects/" ++ gcloudProject⟩

namespace UserBuilder

/-- The body of the `if (raw.data.metadata)` block of
`UserBuilder.dataConstructor`: the two temporal-field statements, the
`lastSignedInAt` one first, as in the source. -/
def normMetadata (parseDate : String → Option Int) (m : Metadata) : Metadata :=
  let m1 := { m with lastSignedInAt := coerceField parseDate m.lastSignedInAt }
  { m1 with createdAt := coerceField parseDate m1.createdAt }

/-- The metadata phase of `UserBuilder.dataConstructor`: when
`raw.data.metadata` is present (an object, hence truthy) its temporal
fields are coerced; when absent the guard is falsy and nothing
happens. -/
def normData (parseDate : String → Option Int) (d : UserData) : UserData :=
  match d.metadata with
  | none => d
  | some m => { d with metadata := some (normMetadata parseDate m) }

/-- The `if (raw.data.uid)` block of `UserBuilder.dataConstructor`:
when `uid` is truthy, `raw.data.uid = raw.data.uid.substring(raw.data.uid.lastIndexOf('/') + 1)`;
on a truthy non-string value the `.substring` call throws a TypeError. -/
def uidStep (d : UserData) : Except JsError UserData :=
  if jsTruthy d.uid then
    match d.uid with
    | some (JVal.vStr s) => Except.ok { d with uid := some (JVal.vStr (jsCanonUid s)) }
    | _ => Except.error (JsError.typeError "uid.substring is not a function")
  else Except.ok d

/-- `UserBuilder.dataConstructor` from src/providers/auth.ts: coerces
the two known string timestamps of `raw.data.metadata` to `Date`s,
strips a slash-delimited prefix from `raw.data.uid`, and returns
`raw.data`.  The assignments are in place in the source, so the
returned record is also the post-call contents of `raw.data`.  A
truthy non-string `uid` makes `uid.substring` throw a TypeError. -/
def dataConstructor (parseDate : String → Option Int) (raw : RawEvent) :
    Except JsError UserData :=
  uidStep (normData parseDate raw.data)

end UserBuilder

/-- `UserBuilder.onCreate` from src/providers/auth.ts. -/
def UserBuilder.onCreate {H : Type} (b : UserBuilder) (handler : H) : CloudFunction H :=
  makeCloudFunction
    { provider := provider
      handler := handler
      resource := b.resource
      eventType := "user.create"
      dataConstructor := UserBuilder.dataConstructor }

/-- `UserBuilder.onDelete` from src/providers/auth.ts. -/
def UserBuilder.onDelete {H : Type} (b : UserBuilder) (handler : H) : CloudFunction H :=
  makeCloudFunction
    { provider := provider
      handler := handler
      resource := b.resource
      eventType := "user.delete"
      dataConstructor := UserBuilder.dataConstructor }

/-- `FirebaseEventOptions` from src/event.ts: `service` and `type` are
required, the remaining properties optional. -/
structure FirebaseEventOptions where
  service : String
  type : String
  instance_ : Option String
  uid : Option String
  deviceId : Option String
  data : Option JVal
deriving DecidableEq, Repr

/-- `FirebaseEvent` from src/event.ts: the raw event envelope class.
Its fields are exactly `service`, `type`, `instance`, `uid`,
`deviceId` and `data`; it has no `resource` field. -/
structure FirebaseEvent where
  service : String
  type : String
  instance_ : Option String
  uid : Option String
  deviceId : Option String
  data : Option JVal
deriving DecidableEq, Repr

/-- The `FirebaseEvent` constructor from src/event.ts: copies the six
option properties positionally into the six fields. -/
def mkFirebaseEvent (o : FirebaseEventOptions) : FirebaseEvent :=
  { service := o.service
    type := o.type
    instance_ := o.instance_
    uid := o.uid
    deviceId := o.deviceId
    data := o.data }

/-- The declared field names of the `FirebaseEvent` class, in source
order (src/event.ts lines 11-16). -/
def firebaseEventFields : List String :=
  ["service", "type", "instance", "uid", "deviceId", "data"]

/-- The field names assigned by the `FirebaseEvent` constructor's
destructuring assignment (src/event.ts lines 19-20). -/
def constructorAssignedFields : List String :=
  ["service", "type", "instance", "uid", "deviceId", "data"]

/-- The documented wire shape of the payload: the optional `uid`, when
present, is a string (the optional metadata temporal fields may hold
anything). -/
def wireShape (d : UserData) : Bool :=
  match d.uid with
  | none => true
  | some (JVal.vStr _) => true
  | some _ => false

/-- An already-normalized payload: the known temporal metadata fields
are not strings, and the identifier, when present, is a string holding
no path separator. -/
def alreadyNormalized (d : UserData) : Bool :=
  (match d.metadata with
   | none => true
   | some m => !(jsTypeofString m.createdAt) && !(jsTypeofString m.lastSignedInAt)) &&
  (match d.uid with
   | none => true
   | some (JVal.vStr s) => decide ('/' ∉ s.data)
   | some _ => false)

/-- The raw envelope after a call to the normalizer: the source assigns
into `raw.data.metadata.*` and `raw.data.uid` in place and returns
`raw.data`, so the post-call envelope holds exactly the returned
record. -/
def rawAfterNormalize (parseDate : String → Option Int) (raw : RawEvent) :
    Except JsError RawEvent :=
  (UserBuilder.dataConstructor parseDate raw).map (fun d => ⟨d⟩)

example :
    UserBuilder.dataConstructor (fun _ => some 0)
      ⟨⟨some (JVal.vStr "a/b/c"), none, []⟩⟩ =
    Except.ok ⟨some (JVal.vStr "c"), none, []⟩ := by decide

example :
    UserBuilder.dataConstructor (fun _ => some 0)
      ⟨⟨some (JVal.vStr "http://provider.example/12345"), none, []⟩⟩ =
    Except.ok ⟨some (JVal.vStr "12345"), none, []⟩ := by decide

example :
    UserBuilder.dataConstructor (fun _ => some 7)
      ⟨⟨none, some ⟨some (JVal.vStr "2024-01-01T00:00:00Z"), none, []⟩, []⟩⟩ =
    Except.ok ⟨none, some ⟨some (JVal.vDate (some 7)), none, []⟩, []⟩ := by decide

/-! ### Lemmas about the last-separator scan -/

lemma jsLastIndexOf_eq_neg_one {c : Char} {l : List Char} (h : c ∉ l) :
    jsLastIndexOf c l = -1 := by
  induction l with
  | nil => rfl
  | cons x xs ih =>
    have hx : ¬ x = c := by rintro rfl; exact h (List.mem_cons_self _ _)
    have hxs : c ∉ xs := fun hm => h (List.mem_cons_of_mem _ hm)
    simp [jsLastIndexOf, ih hxs, hx]

lemma jsLastIndexOf_nonneg {c : Char} {l : List Char} (h : c ∈ l) :
    0 ≤ jsLastIndexOf c l := by
  induction l with
  | nil => cases h
  | cons x xs ih =>
    simp only [jsLastIndexOf]
    split
    · omega
    · split
      · omega
      · rcases List.mem_cons.mp h with h1 | h2
        · simp_all
        · exact absurd (ih h2) (by assumption)

lemma jsCanonList_of_not_mem {l : List Char} (h : '/' ∉ l) :
    jsSubstringFrom l (jsLastIndexOf '/' l + 1) = l := by
  rw [jsLastIndexOf_eq_neg_one h]
  simp [jsSubstringFrom]

lemma jsCanonList_split {l : List Char} (h : '/' ∈ l) :
    ∃ pre suf, l = pre ++ '/' :: suf ∧ '/' ∉ suf ∧
      jsSubstringFrom l (jsLastIndexOf '/' l + 1) = suf := by
  induction l with
  | nil => cases h
  | cons x xs ih =>
    by_cases hm : '/' ∈ xs
    · obtain ⟨pre, suf, heq, hns, hc⟩ := ih hm
      refine ⟨x :: pre, suf, by rw [heq]; rfl, hns, ?_⟩
      have hr : 0 ≤ jsLastIndexOf '/' xs := jsLastIndexOf_nonneg hm
      simp only [jsLastIndexOf, jsSubstringFrom] at hc ⊢
      rw [if_pos hr]
      have ht : (jsLastIndexOf '/' xs + 1 + 1).toNat
          = (jsLastIndexOf '/' xs + 1).toNat + 1 := by omega
      rw [ht, List.drop_succ_cons]
      exact hc
    · have hx : x = '/' := by
        rcases List.mem_cons.mp h with h1 | h2
        · exact h1.symm
        · exact absurd h2 hm
      subst hx
      refine ⟨[], xs, rfl, hm, ?_⟩
      have hr : jsLastIndexOf '/' xs = -1 := jsLastIndexOf_eq_neg_one hm
      simp [jsLastIndexOf, jsSubstringFrom, hr]

lemma jsCanonList_not_mem_self (l : List Char) :
    '/' ∉ jsSubstringFrom l (jsLastIndexOf '/' l + 1) := by
  by_cases h : '/' ∈ l
  · obtain ⟨pre, suf, _, hns, hc⟩ := jsCanonList_split h
    rw [hc]; exact hns
  · rw [jsCanonList_of_not_mem h]; exact h

lemma jsCanonUid_of_not_mem {s : String} (h : '/' ∉ s.data) : jsCanonUid s = s := by
  unfold jsCanonUid
  rw [jsCanonList_of_not_mem h]

lemma jsCanonUid_not_mem_self (s : String) : '/' ∉ (jsCanonUid s).data :=
  jsCanonList_not_mem_self s.data

lemma jsCanonUid_idem (s : String) : jsCanonUid (jsCanonUid s) = jsCanonUid s :=
  jsCanonUid_of_not_mem (jsCanonUid_not_mem_self s)

/-! ### Lemmas about the normalizer phases -/

lemma coerceField_str {parseDate : String → Option Int} {s : String} (h : s ≠ "") :
    coerceField parseDate (some (JVal.vStr s)) = some (JVal.vDate (parseDate s)) := by
  simp [coerceField, jsTruthy, jsTypeofString, h]

lemma coerceField_str_empty (parseDate : String → Option Int) :
    coerceField parseDate (some (JVal.vStr "")) = some (JVal.vStr "") := by
  simp [coerceField, jsTruthy]

lemma coerceField_not_string {parseDate : String → Option Int} {v : Option JVal}
    (h : jsTypeofString v = false) : coerceField parseDate v = v := by
  simp [coerceField, h]

lemma coerceField_idem (parseDate : String → Option Int) (v : Option JVal) :
    coerceField parseDate (coerceField parseDate v) = coerceField parseDate v := by
  match v with
  | none => rfl
  | some (JVal.vStr s) =>
    by_cases h : s = ""
    · subst h; rw [coerceField_str_empty, coerceField_str_empty]
    · rw [coerceField_str h]
      exact coerceField_not_string rfl
  | some (JVal.vDate t) => rfl
  | some (JVal.vNum n) =>
    have h : coerceField parseDate (some (JVal.vNum n)) = some (JVal.vNum n) := by
      simp [coerceField, jsTypeofString]
    rw [h, h]
  | some (JVal.vBool b) =>
    have h : coerceField parseDate (some (JVal.vBool b)) = some (JVal.vBool b) := by
      simp [coerceField, jsTypeofString]
    rw [h, h]
  | some JVal.vNull => rfl

lemma normMetadata_eq (parseDate : String → Option Int) (m : Metadata) :
    UserBuilder.normMetadata parseDate m =
      ⟨coerceField parseDate m.createdAt, coerceField parseDate m.lastSignedInAt, m.rest⟩ :=
  rfl

lemma normMetadata_idem (parseDate : String → Option Int) (m : Metadata) :
    UserBuilder.normMetadata parseDate (UserBuilder.normMetadata parseDate m) =
      UserBuilder.normMetadata parseDate m := by
  simp [normMetadata_eq, coerceField_idem]

lemma normData_uid (parseDate : String → Option Int) (d : UserData) :
    (UserBuilder.normData parseDate d).uid = d.uid := by
  unfold UserBuilder.normData
  cases d.metadata <;> rfl

lemma normData_rest (parseDate : String → Option Int) (d : UserData) :
    (UserBuilder.normData parseDate d).rest = d.rest := by
  unfold UserBuilder.normData
  cases d.metadata <;> rfl

lemma normData_metadata (parseDate : String → Option Int) (d : UserData) :
    (UserBuilder.normData parseDate d).metadata =
      d.metadata.map (UserBuilder.normMetadata parseDate) := by
  unfold UserBuilder.normData
  cases hm : d.metadata <;> simp [hm]

lemma normData_idem (parseDate : String → Option Int) (d : UserData) :
    UserBuilder.normData parseDate (UserBuilder.normData parseDate d) =
      UserBuilder.normData parseDate d := by
  unfold UserBuilder.normData
  cases hm : d.metadata with
  | none => rw [hm]
  | some m => simp [normMetadata_idem]

lemma normData_uid_update (parseDate : String → Option Int) (d : UserData) (u : Option JVal) :
    UserBuilder.normData parseDate { d with uid := u } =
      { UserBuilder.normData parseDate d with uid := u } := by
  unfold UserBuilder.normData
  cases hm : d.metadata <;> simp [hm]

lemma uidStep_ok (d d' : UserData) (h : UserBuilder.uidStep d = Except.ok d') :
    (d' = d ∧ jsTruthy d.uid = false) ∨
    (∃ s, d.uid = some (JVal.vStr s) ∧ s ≠ "" ∧
      d' = { d with uid := some (JVal.vStr (jsCanonUid s)) }) := by
  unfold UserBuilder.uidStep at h
  by_cases ht : jsTruthy d.uid = true
  · rw [if_pos ht] at h
    match hu : d.uid with
    | some (JVal.vStr s) =>
      rw [hu] at h ht
      refine Or.inr ⟨s, rfl, ?_, ?_⟩
      · intro hs; subst hs; simp [jsTruthy] at ht
      · exact (Except.ok.inj h).symm
    | none => rw [hu] at ht; simp [jsTruthy] at ht
    | some (JVal.vDate t) => rw [hu] at h; cases h
    | some (JVal.vNum n) => rw [hu] at h; cases h
    | some (JVal.vBool b) => rw [hu] at h; cases h
    | some JVal.vNull => rw [hu] at ht; simp [jsTruthy] at ht
  · rw [if_neg ht] at h
    exact Or.inl ⟨(Except.ok.inj h).symm, Bool.not_eq_true _ ▸ ht⟩

lemma uidStep_of_falsy {d : UserData} (h : jsTruthy d.uid = false) :
    UserBuilder.uidStep d = Except.ok d := by
  unfold UserBuilder.uidStep
  rw [if_neg (by simp [h])]

lemma dataConstructor_fix (parseDate : String → Option Int) (raw : RawEvent) (d : UserData)
    (h : UserBuilder.dataConstructor parseDate raw = Except.ok d) :
    UserBuilder.dataConstructor parseDate ⟨d⟩ = Except.ok d := by
  unfold UserBuilder.dataConstructor at h ⊢
  rcases uidStep_ok _ _ h with ⟨rfl, ht⟩ | ⟨s, hu, hs, rfl⟩
  · show UserBuilder.uidStep
        (UserBuilder.normData parseDate (UserBuilder.normData parseDate raw.data)) = _
    rw [normData_idem]
    exact uidStep_of_falsy ht
  · show UserBuilder.uidStep (UserBuilder.normData parseDate
        { UserBuilder.normData parseDate raw.data with
            uid := some (JVal.vStr (jsCanonUid s)) }) = _
    rw [normData_uid_update, normData_idem]
    by_cases he : jsCanonUid s = ""
    · exact uidStep_of_falsy (by simp [jsTruthy, he])
    · unfold UserBuilder.uidStep
      rw [if_pos (by simp [jsTruthy, he])]
      simp [jsCanonUid_idem]

lemma uidStep_str (d : UserData) (s : String) (hu : d.uid = some (JVal.vStr s))
    (hs : s ≠ "") :
    UserBuilder.uidStep d = Except.ok { d with uid := some (JVal.vStr (jsCanonUid s)) } := by
  unfold UserBuilder.uidStep
  rw [hu, if_pos (by simp [jsTruthy, hs])]

lemma uidStep_metadata {d d' : UserData} (h : UserBuilder.uidStep d = Except.ok d') :
    d'.metadata = d.metadata := by
  rcases uidStep_ok _ _ h with ⟨rfl, _⟩ | ⟨s, _, _, rfl⟩ <;> rfl

lemma uidStep_rest {d d' : UserData} (h : UserBuilder.uidStep d = Except.ok d') :
    d'.rest = d.rest := by
  rcases uidStep_ok _ _ h with ⟨rfl, _⟩ | ⟨s, _, _, rfl⟩ <;> rfl

lemma normData_none {parseDate : String → Option Int} {d : UserData}
    (h : d.metadata = none) : UserBuilder.normData parseDate d = d := by
  unfold UserBuilder.normData
  rw [h]

lemma eta_uid {d : UserData} {u : Option JVal} (h : d.uid = u) :
    { d with uid := u } = d := by
  rw [← h]

lemma eta_metadata {d : UserData} {mo : Option Metadata} (h : d.metadata = mo) :
    { d with metadata := mo } = d := by
  rw [← h]

lemma dataConstructor_of_normalized (parseDate : String → Option Int) (raw : RawEvent)
    (h : alreadyNormalized raw.data = true) :
    UserBuilder.dataConstructor parseDate raw = Except.ok raw.data := by
  rw [alreadyNormalized, Bool.and_eq_true] at h
  obtain ⟨hmeta, huid⟩ := h
  unfold UserBuilder.dataConstructor
  have hnd : UserBuilder.normData parseDate raw.data = raw.data := by
    cases hm : raw.data.metadata with
    | none => exact normData_none hm
    | some m =>
      rw [hm] at hmeta
      rw [Bool.and_eq_true] at hmeta
      obtain ⟨h1, h2⟩ := hmeta
      rw [Bool.not_eq_true'] at h1 h2
      have hc : coerceField parseDate m.createdAt = m.createdAt :=
        coerceField_not_string h1
      have hl : coerceField parseDate m.lastSignedInAt = m.lastSignedInAt :=
        coerceField_not_string h2
      have hmm : UserBuilder.normMetadata parseDate m = m := by
        rw [normMetadata_eq, hc, hl]
      unfold UserBuilder.normData
      rw [hm]
      show { raw.data with metadata := some (UserBuilder.normMetadata parseDate m) } = raw.data
      rw [hmm]
      exact eta_metadata hm
  rw [hnd]
  cases hu : raw.data.uid with
  | none => exact uidStep_of_falsy (by rw [hu]; rfl)
  | some v =>
    rw [hu] at huid
    cases v with
    | vStr s =>
      have hns : '/' ∉ s.data := of_decide_eq_true huid
      by_cases hs : s = ""
      · subst hs
        exact uidStep_of_falsy (by rw [hu]; decide)
      · rw [uidStep_str raw.data s hu hs, jsCanonUid_of_not_mem hns, eta_uid hu]
    | vDate t => exact Bool.noConfusion huid
    | vNum n => exact Bool.noConfusion huid
    | vBool b => exact Bool.noConfusion huid
    | vNull => exact Bool.noConfusion huid

lemma dataConstructor_metadata {parseDate : String → Option Int} {raw : RawEvent}
    {d : UserData} (h : UserBuilder.dataConstructor parseDate raw = Except.ok d) :
    d.metadata = raw.data.metadata.map (UserBuilder.normMetadata parseDate) := by
  unfold UserBuilder.dataConstructor at h
  rw [uidStep_metadata h, normData_metadata]

lemma dataConstructor_rest {parseDate : String → Option Int} {raw : RawEvent}
    {d : UserData} (h : UserBuilder.dataConstructor parseDate raw = Except.ok d) :
    d.rest = raw.data.rest := by
  unfold UserBuilder.dataConstructor at h
  rw [uidStep_rest h, normData_rest]

/-! ### The claims -/

/-- Claim C1: for every payload whose uid is a present string, the
normalizer succeeds; a value containing one or more path separators is
replaced by exactly the substring after the last separator, a value
with no separator is left unchanged; an absent identifier is left
absent with no error. -/
theorem c1_uid_canonicalization (parseDate : String → Option Int) (raw : RawEvent) :
    (∀ s, raw.data.uid = some (JVal.vStr s) →
      ∃ d, UserBuilder.dataConstructor parseDate raw = Except.ok d ∧
        ('/' ∈ s.data →
          ∃ pre suf, s.data = pre ++ '/' :: suf ∧ '/' ∉ suf ∧
            d.uid = some (JVal.vStr (String.mk suf))) ∧
        ('/' ∉ s.data → d.uid = some (JVal.vStr s))) ∧
    (raw.data.uid = none →
      ∃ d, UserBuilder.dataConstructor parseDate raw = Except.ok d ∧ d.uid = none) := by
  have key : UserBuilder.dataConstructor parseDate raw =
      UserBuilder.uidStep (UserBuilder.normData parseDate raw.data) := rfl
  constructor
  · intro s hu
    have hn : (UserBuilder.normData parseDate raw.data).uid = some (JVal.vStr s) := by
      rw [normData_uid]; exact hu
    by_cases hs : s = ""
    · subst hs
      refine ⟨UserBuilder.normData parseDate raw.data, ?_, ?_, ?_⟩
      · rw [key]; exact uidStep_of_falsy (by rw [hn]; decide)
      · intro hm; exact absurd hm (by decide)
      · intro _; exact hn
    · refine ⟨{ UserBuilder.normData parseDate raw.data with
          uid := some (JVal.vStr (jsCanonUid s)) }, ?_, ?_, ?_⟩
      · rw [key]; exact uidStep_str _ s hn hs
      · intro hm
        obtain ⟨pre, suf, heq, hnsuf, hc⟩ := jsCanonList_split hm
        refine ⟨pre, suf, heq, hnsuf, ?_⟩
        show some (JVal.vStr (jsCanonUid s)) = some (JVal.vStr (String.mk suf))
        simp only [jsCanonUid]
        rw [hc]
      · intro hm
        show some (JVal.vStr (jsCanonUid s)) = some (JVal.vStr s)
        rw [jsCanonUid_of_not_mem hm]
  · intro hu
    refine ⟨UserBuilder.normData parseDate raw.data, ?_, ?_⟩
    · rw [key]
      exact uidStep_of_falsy (by rw [normData_uid, hu]; rfl)
    · rw [normData_uid]; exact hu

/-- Witness for C1: the spec's own example `"a/b/c"`. -/
theorem c1_uid_canonicalization_witness :
    ∃ d, UserBuilder.dataConstructor (fun _ => none)
        ⟨⟨some (JVal.vStr "a/b/c"), none, []⟩⟩ = Except.ok d ∧
      ('/' ∈ ("a/b/c" : String).data →
        ∃ pre suf, ("a/b/c" : String).data = pre ++ '/' :: suf ∧ '/' ∉ suf ∧
          d.uid = some (JVal.vStr (String.mk suf))) ∧
      ('/' ∉ ("a/b/c" : String).data → d.uid = some (JVal.vStr "a/b/c")) :=
  (c1_uid_canonicalization (fun _ => none)
    ⟨⟨some (JVal.vStr "a/b/c"), none, []⟩⟩).1 "a/b/c" rfl

/-- Claim C3: normalization is idempotent.  An already-normalized
payload (temporal metadata fields not strings, identifier a
separator-free string or absent) is returned unchanged, and every
successful output of the normalizer is a fixpoint, so applying the
normalizer twice equals applying it once. -/
theorem c3_idempotent :
    (∀ (parseDate : String → Option Int) (raw : RawEvent),
      alreadyNormalized raw.data = true →
      UserBuilder.dataConstructor parseDate raw = Except.ok raw.data) ∧
    (∀ (parseDate : String → Option Int) (raw : RawEvent) (d : UserData),
      UserBuilder.dataConstructor parseDate raw = Except.ok d →
      UserBuilder.dataConstructor parseDate ⟨d⟩ = Except.ok d) :=
  ⟨dataConstructor_of_normalized, dataConstructor_fix⟩

/-- Witness for C3: an already-normalized payload is unchanged, and
the output of normalizing `"a/b"` is itself a fixpoint. -/
theorem c3_idempotent_witness :
    UserBuilder.dataConstructor (fun _ => none)
        ⟨⟨some (JVal.vStr "abc"), some ⟨some (JVal.vDate none), none, []⟩, []⟩⟩ =
      Except.ok ⟨some (JVal.vStr "abc"), some ⟨some (JVal.vDate none), none, []⟩, []⟩ ∧
    UserBuilder.dataConstructor (fun _ => none) ⟨⟨some (JVal.vStr "b"), none, []⟩⟩ =
      Except.ok ⟨some (JVal.vStr "b"), none, []⟩ :=
  ⟨c3_idempotent.1 (fun _ => none)
      ⟨⟨some (JVal.vStr "abc"), some ⟨some (JVal.vDate none), none, []⟩, []⟩⟩ (by decide),
   c3_idempotent.2 (fun _ => none) ⟨⟨some (JVal.vStr "a/b"), none, []⟩⟩
      ⟨some (JVal.vStr "b"), none, []⟩ (by decide)⟩

/-- Counterexample to C4: the normalizer is not side-effect-free.  The
source assigns into `raw.data` in place, so after normalizing a
payload with uid `"a/b"` the raw envelope differs from its pre-call
value. -/
theorem c4_counterexample :
    rawAfterNormalize (fun _ => none) ⟨⟨some (JVal.vStr "a/b"), none, []⟩⟩ =
      Except.ok ⟨⟨some (JVal.vStr "b"), none, []⟩⟩ ∧
    (⟨⟨some (JVal.vStr "b"), none, []⟩⟩ : RawEvent) ≠
      ⟨⟨some (JVal.vStr "a/b"), none, []⟩⟩ := by
  exact ⟨rfl, by decide⟩

/-- Claim C4 as amended: the normalizer mutates the raw payload in
place — after a successful call the envelope's data is exactly the
returned domain record (so the input is modified whenever repair
occurs), and only an already-normalized payload is left unchanged. -/
theorem c4_mutation_amended (parseDate : String → Option Int) (raw : RawEvent) :
    (∀ d, UserBuilder.dataConstructor parseDate raw = Except.ok d →
      rawAfterNormalize parseDate raw = Except.ok ⟨d⟩) ∧
    (alreadyNormalized raw.data = true →
      rawAfterNormalize parseDate raw = Except.ok raw) := by
  constructor
  · intro d h
    unfold rawAfterNormalize
    rw [h]
    rfl
  · intro h
    unfold rawAfterNormalize
    rw [dataConstructor_of_normalized parseDate raw h]
    rfl

/-- Witness for C4 (amended): a repaired payload's envelope holds the
repaired record; an already-normalized envelope is unchanged. -/
theorem c4_mutation_amended_witness :
    rawAfterNormalize (fun _ => none) ⟨⟨some (JVal.vStr "a/b"), none, []⟩⟩ =
      Except.ok ⟨⟨some (JVal.vStr "b"), none, []⟩⟩ ∧
    rawAfterNormalize (fun _ => none) ⟨⟨some (JVal.vStr "abc"), none, []⟩⟩ =
      Except.ok ⟨⟨some (JVal.vStr "abc"), none, []⟩⟩ :=
  ⟨(c4_mutation_amended (fun _ => none) ⟨⟨some (JVal.vStr "a/b"), none, []⟩⟩).1
      ⟨some (JVal.vStr "b"), none, []⟩ (by decide),
   (c4_mutation_amended (fun _ => none) ⟨⟨some (JVal.vStr "abc"), none, []⟩⟩).2 (by decide)⟩

/-- Claim C6: descriptors from the two entry points of one builder
share the builder's resource and the provider id `'firebase.auth'`,
carry distinct event-type strings `'user.create'` and `'user.delete'`,
and each binds its own callback and the data normalizer. -/
theorem c6_builder_isolation {H : Type} (b : UserBuilder) (h₁ h₂ : H) :
    (b.onCreate h₁).resource = b.resource ∧
    (b.onDelete h₂).resource = b.resource ∧
    (b.onCreate h₁).provider = "firebase.auth" ∧
    (b.onDelete h₂).provider = "firebase.auth" ∧
    (b.onCreate h₁).eventType = "user.create" ∧
    (b.onDelete h₂).eventType = "user.delete" ∧
    (b.onCreate h₁).eventType ≠ (b.onDelete h₂).eventType ∧
    (b.onCreate h₁).handler = h₁ ∧
    (b.onDelete h₂).handler = h₂ ∧
    (b.onCreate h₁).dataConstructor = UserBuilder.dataConstructor ∧
    (b.onDelete h₂).dataConstructor = UserBuilder.dataConstructor := by
  refine ⟨rfl, rfl, rfl, rfl, rfl, rfl, ?_, rfl, rfl, rfl, rfl⟩
  show ("user.create" : String) ≠ "user.delete"
  decide

/-- Claim C7: constructing the user-event builder binds its resource
to `'projects/'` concatenated with the one process-wide project
identifier; `user` consults no other environment value (it is a
function of that single argument). -/
theorem c7_resource_binding (gcloudProject : String) :
    (user gcloudProject).resource = "projects/" ++ gcloudProject :=
  rfl

/-- Counterexample to C2: the guard tests truthiness, not type, so an
empty-string `createdAt` — which /is/ a string — is left as the empty
string instead of being parsed into a temporal value (here the parse
of `""` would be `JVal.vDate (some 0)`). -/
theorem c2_counterexample :
    UserBuilder.dataConstructor (fun _ => some 0)
        ⟨⟨none, some ⟨some (JVal.vStr ""), none, []⟩, []⟩⟩ =
      Except.ok ⟨none, some ⟨some (JVal.vStr ""), none, []⟩, []⟩ ∧
    some (JVal.vStr "") ≠ some (JVal.vDate (some 0)) := by
  exact ⟨rfl, by decide⟩

/-- Claim C2 as amended: for each known temporal metadata field, a
/non-empty/ string value is parsed into the temporal value of that
instant; a value that is already temporal, an empty string, or an
absent field is left unchanged; an absent metadata object is skipped
silently with no field added. -/
theorem c2_temporal_coercion_amended (parseDate : String → Option Int) (raw : RawEvent)
    (d : UserData) (h : UserBuilder.dataConstructor parseDate raw = Except.ok d) :
    (∀ m, raw.data.metadata = some m →
      ∃ m', d.metadata = some m' ∧
        (∀ s, m.createdAt = some (JVal.vStr s) → s ≠ "" →
          m'.createdAt = some (JVal.vDate (parseDate s))) ∧
        (∀ t, m.createdAt = some (JVal.vDate t) → m'.createdAt = some (JVal.vDate t)) ∧
        (m.createdAt = none → m'.createdAt = none) ∧
        (∀ s, m.lastSignedInAt = some (JVal.vStr s) → s ≠ "" →
          m'.lastSignedInAt = some (JVal.vDate (parseDate s))) ∧
        (∀ t, m.lastSignedInAt = some (JVal.vDate t) →
          m'.lastSignedInAt = some (JVal.vDate t)) ∧
        (m.lastSignedInAt = none → m'.lastSignedInAt = none)) ∧
    (raw.data.metadata = none → d.metadata = none) := by
  have hd := dataConstructor_metadata h
  constructor
  · intro m hm
    have hd2 : d.metadata = some (UserBuilder.normMetadata parseDate m) := by
      rw [hd, hm]; rfl
    refine ⟨UserBuilder.normMetadata parseDate m, hd2, ?_, ?_, ?_, ?_, ?_, ?_⟩
    · intro s hs hne
      show coerceField parseDate m.createdAt = some (JVal.vDate (parseDate s))
      rw [hs, coerceField_str hne]
    · intro t ht
      show coerceField parseDate m.createdAt = some (JVal.vDate t)
      rw [ht]; rfl
    · intro hn
      show coerceField parseDate m.createdAt = none
      rw [hn]; rfl
    · intro s hs hne
      show coerceField parseDate m.lastSignedInAt = some (JVal.vDate (parseDate s))
      rw [hs, coerceField_str hne]
    · intro t ht
      show coerceField parseDate m.lastSignedInAt = some (JVal.vDate t)
      rw [ht]; rfl
    · intro hn
      show coerceField parseDate m.lastSignedInAt = none
      rw [hn]; rfl
  · intro hm
    rw [hd, hm]; rfl

/-- Witness for C2 (amended): a string `createdAt` is parsed, an
already-temporal `lastSignedInAt` is unchanged. -/
theorem c2_temporal_coercion_amended_witness :
    ∃ m', (⟨none, some ⟨some (JVal.vDate (some 42)), some (JVal.vDate (some 5)), []⟩,
        []⟩ : UserData).metadata = some m' ∧
      m'.createdAt = some (JVal.vDate (some 42)) ∧
      m'.lastSignedInAt = some (JVal.vDate (some 5)) := by
  obtain ⟨h1, _⟩ := c2_temporal_coercion_amended (fun _ => some 42)
    ⟨⟨none, some ⟨some (JVal.vStr "2024-01-01T00:00:00Z"), some (JVal.vDate (some 5)),
        []⟩, []⟩⟩
    ⟨none, some ⟨some (JVal.vDate (some 42)), some (JVal.vDate (some 5)), []⟩, []⟩
    (by decide)
  obtain ⟨m', hm', hc1, _, _, _, hl2, _⟩ :=
    h1 ⟨some (JVal.vStr "2024-01-01T00:00:00Z"), some (JVal.vDate (some 5)), []⟩ rfl
  exact ⟨m', hm', hc1 "2024-01-01T00:00:00Z" rfl (by decide), hl2 (some 5) rfl⟩

/-- Claim C5: over the documented wire shape (optional `uid` a string)
the normalizer is total — it always returns a record, never an error —
and a malformed temporal string (one the parser rejects) yields an
invalid temporal value in the record, not a normalizer error. -/
theorem c5_total_no_throw (parseDate : String → Option Int) (raw : RawEvent)
    (h : wireShape raw.data = true) :
    (∃ d, UserBuilder.dataConstructor parseDate raw = Except.ok d) ∧
    (∀ m s, raw.data.metadata = some m → m.createdAt = some (JVal.vStr s) → s ≠ "" →
      parseDate s = none →
      ∀ d, UserBuilder.dataConstructor parseDate raw = Except.ok d →
        ∃ m', d.metadata = some m' ∧ m'.createdAt = some (JVal.vDate none)) := by
  have key : UserBuilder.dataConstructor parseDate raw =
      UserBuilder.uidStep (UserBuilder.normData parseDate raw.data) := rfl
  constructor
  · unfold wireShape at h
    cases hu : raw.data.uid with
    | none =>
      exact ⟨_, by rw [key]; exact uidStep_of_falsy (by rw [normData_uid, hu]; rfl)⟩
    | some v =>
      rw [hu] at h
      cases v with
      | vStr s =>
        by_cases hs : s = ""
        · subst hs
          exact ⟨_, by rw [key]; exact uidStep_of_falsy (by rw [normData_uid, hu]; decide)⟩
        · refine ⟨{ UserBuilder.normData parseDate raw.data with
              uid := some (JVal.vStr (jsCanonUid s)) }, ?_⟩
          rw [key]
          exact uidStep_str _ s (by rw [normData_uid]; exact hu) hs
      | vDate t => exact Bool.noConfusion h
      | vNum n => exact Bool.noConfusion h
      | vBool b => exact Bool.noConfusion h
      | vNull => exact Bool.noConfusion h
  · intro m s hm hca hs hpd d hok
    have hd2 : d.metadata = some (UserBuilder.normMetadata parseDate m) := by
      rw [dataConstructor_metadata hok, hm]; rfl
    refine ⟨UserBuilder.normMetadata parseDate m, hd2, ?_⟩
    show coerceField parseDate m.createdAt = some (JVal.vDate none)
    rw [hca, coerceField_str hs, hpd]

/-- Witness for C5: a string uid plus a timestamp no parser accepts
still normalizes without error, producing an invalid temporal value. -/
theorem c5_total_no_throw_witness :
    (∃ d, UserBuilder.dataConstructor (fun _ => none)
        ⟨⟨some (JVal.vStr "u1"), some ⟨some (JVal.vStr "garbage"), none, []⟩, []⟩⟩ =
      Except.ok d) ∧
    (∃ m', (⟨some (JVal.vStr "u1"), some ⟨some (JVal.vDate none), none, []⟩,
        []⟩ : UserData).metadata = some m' ∧
      m'.createdAt = some (JVal.vDate none)) := by
  obtain ⟨h1, h2⟩ := c5_total_no_throw (fun _ => none)
    ⟨⟨some (JVal.vStr "u1"), some ⟨some (JVal.vStr "garbage"), none, []⟩, []⟩⟩
    (by decide)
  refine ⟨h1, ?_⟩
  exact h2 ⟨some (JVal.vStr "garbage"), none, []⟩ "garbage" rfl rfl (by decide) rfl
    ⟨some (JVal.vStr "u1"), some ⟨some (JVal.vDate none), none, []⟩, []⟩ (by decide)

/-- Counterexample to C8: the envelope class of src/event.ts declares
no `resource` field and its constructor assigns none — the documented
inbound shape's `resource: string` member does not exist on
`FirebaseEvent`. -/
theorem c8_counterexample :
    "resource" ∉ firebaseEventFields ∧ "resource" ∉ constructorAssignedFields := by
  exact ⟨by decide, by decide⟩

/-- Claim C8 as amended: the raw envelope has exactly the fields
`service`, `type`, `instance`, `uid`, `deviceId` and `data` (no
`resource`); the constructor sets each of them, including `service`
and `type`, from the options at emission. -/
theorem c8_envelope_shape_amended (o : FirebaseEventOptions) :
    firebaseEventFields = ["service", "type", "instance", "uid", "deviceId", "data"] ∧
    constructorAssignedFields = firebaseEventFields ∧
    (mkFirebaseEvent o).service = o.service ∧
    (mkFirebaseEvent o).type = o.type ∧
    (mkFirebaseEvent o).instance_ = o.instance_ ∧
    (mkFirebaseEvent o).uid = o.uid ∧
    (mkFirebaseEvent o).deviceId = o.deviceId ∧
    (mkFirebaseEvent o).data = o.data :=
  ⟨rfl, rfl, rfl, rfl, rfl, rfl, rfl, rfl⟩

/-- Claim C9: the normalizer's guards test truthiness, not presence —
empty-string temporal fields and an empty-string uid are left exactly
as they are, just as if absent. -/
theorem c9_truthiness_guards (parseDate : String → Option Int) (raw : RawEvent)
    (d : UserData) (h : UserBuilder.dataConstructor parseDate raw = Except.ok d) :
    (∀ m, raw.data.metadata = some m → m.createdAt = some (JVal.vStr "") →
      ∃ m', d.metadata = some m' ∧ m'.createdAt = some (JVal.vStr "")) ∧
    (∀ m, raw.data.metadata = some m → m.lastSignedInAt = some (JVal.vStr "") →
      ∃ m', d.metadata = some m' ∧ m'.lastSignedInAt = some (JVal.vStr "")) ∧
    (raw.data.uid = some (JVal.vStr "") → d.uid = some (JVal.vStr "")) := by
  refine ⟨?_, ?_, ?_⟩
  · intro m hm hca
    have hd2 : d.metadata = some (UserBuilder.normMetadata parseDate m) := by
      rw [dataConstructor_metadata h, hm]; rfl
    refine ⟨UserBuilder.normMetadata parseDate m, hd2, ?_⟩
    show coerceField parseDate m.createdAt = some (JVal.vStr "")
    rw [hca, coerceField_str_empty]
  · intro m hm hla
    have hd2 : d.metadata = some (UserBuilder.normMetadata parseDate m) := by
      rw [dataConstructor_metadata h, hm]; rfl
    refine ⟨UserBuilder.normMetadata parseDate m, hd2, ?_⟩
    show coerceField parseDate m.lastSignedInAt = some (JVal.vStr "")
    rw [hla, coerceField_str_empty]
  · intro hu
    unfold UserBuilder.dataConstructor at h
    rcases uidStep_ok _ _ h with ⟨rfl, _⟩ | ⟨s, hus, hs, rfl⟩
    · rw [normData_uid]; exact hu
    · rw [normData_uid, hu] at hus
      exact absurd (JVal.vStr.inj (Option.some.inj hus)).symm hs

/-- Witness for C9: a payload whose uid and both temporal fields are
the empty string passes through unchanged. -/
theorem c9_truthiness_guards_witness :
    (∃ m', (⟨some (JVal.vStr ""), some ⟨some (JVal.vStr ""), some (JVal.vStr ""), []⟩,
        []⟩ : UserData).metadata = some m' ∧ m'.createdAt = some (JVal.vStr "")) ∧
    (∃ m', (⟨some (JVal.vStr ""), some ⟨some (JVal.vStr ""), some (JVal.vStr ""), []⟩,
        []⟩ : UserData).metadata = some m' ∧ m'.lastSignedInAt = some (JVal.vStr "")) ∧
    (⟨some (JVal.vStr ""), some ⟨some (JVal.vStr ""), some (JVal.vStr ""), []⟩,
        []⟩ : UserData).uid = some (JVal.vStr "") := by
  obtain ⟨h1, h2, h3⟩ := c9_truthiness_guards (fun _ => some 0)
    ⟨⟨some (JVal.vStr ""), some ⟨some (JVal.vStr ""), some (JVal.vStr ""), []⟩, []⟩⟩
    ⟨some (JVal.vStr ""), some ⟨some (JVal.vStr ""), some (JVal.vStr ""), []⟩, []⟩
    (by decide)
  exact ⟨h1 ⟨some (JVal.vStr ""), some (JVal.vStr ""), []⟩ rfl rfl,
         h2 ⟨some (JVal.vStr ""), some (JVal.vStr ""), []⟩ rfl rfl,
         h3 rfl⟩

/-- Claim C10: the normalizer changes at most the `uid`,
`metadata.createdAt` and `metadata.lastSignedInAt` locations — the
payload's other properties, metadata's other properties, and the
presence of `uid` and `metadata` are carried into the returned record
unchanged, and no properties are added. -/
theorem c10_frame (parseDate : String → Option Int) (raw : RawEvent) (d : UserData)
    (h : UserBuilder.dataConstructor parseDate raw = Except.ok d) :
    d.rest = raw.data.rest ∧
    (raw.data.metadata = none → d.metadata = none) ∧
    (∀ m, raw.data.metadata = some m →
      ∃ m', d.metadata = some m' ∧ m'.rest = m.rest) ∧
    (raw.data.uid = none → d.uid = none) ∧
    (∀ v, raw.data.uid = some v → ∃ v', d.uid = some v') := by
  have hmeta := dataConstructor_metadata h
  refine ⟨dataConstructor_rest h, ?_, ?_, ?_, ?_⟩
  · intro hm
    rw [hmeta, hm]; rfl
  · intro m hm
    have hd2 : d.metadata = some (UserBuilder.normMetadata parseDate m) := by
      rw [hmeta, hm]; rfl
    exact ⟨UserBuilder.normMetadata parseDate m, hd2, rfl⟩
  · intro hu
    unfold UserBuilder.dataConstructor at h
    rcases uidStep_ok _ _ h with ⟨rfl, _⟩ | ⟨s, hus, _, rfl⟩
    · rw [normData_uid]; exact hu
    · rw [normData_uid, hu] at hus
      cases hus
  · intro v hv
    unfold UserBuilder.dataConstructor at h
    rcases uidStep_ok _ _ h with ⟨rfl, _⟩ | ⟨s, hus, _, rfl⟩
    · exact ⟨v, by rw [normData_uid]; exact hv⟩
    · exact ⟨some (JVal.vStr (jsCanonUid s)) |>.get rfl, rfl⟩

/-- Witness for C10: extra properties at both levels survive
normalization of a payload needing both repairs. -/
theorem c10_frame_witness :
    (⟨some (JVal.vStr "y"), some ⟨some (JVal.vDate none), none, [("k", JVal.vNum 1)]⟩,
        [("extra", JVal.vBool true)]⟩ : UserData).rest =
      [("extra", JVal.vBool true)] ∧
    (∃ m', (⟨some (JVal.vStr "y"), some ⟨some (JVal.vDate none), none,
        [("k", JVal.vNum 1)]⟩, [("extra", JVal.vBool true)]⟩ : UserData).metadata =
      some m' ∧ m'.rest = [("k", JVal.vNum 1)]) ∧
    (∃ v', (⟨some (JVal.vStr "y"), some ⟨some (JVal.vDate none), none,
        [("k", JVal.vNum 1)]⟩, [("extra", JVal.vBool true)]⟩ : UserData).uid =
      some v') := by
  obtain ⟨h1, _, h3, _, h5⟩ := c10_frame (fun _ => none)
    ⟨⟨some (JVal.vStr "x/y"), some ⟨some (JVal.vStr "t"), none, [("k", JVal.vNum 1)]⟩,
        [("extra", JVal.vBool true)]⟩⟩
    ⟨some (JVal.vStr "y"), some ⟨some (JVal.vDate none), none, [("k", JVal.vNum 1)]⟩,
        [("extra", JVal.vBool true)]⟩
    (by decide)
  exact ⟨h1, h3 ⟨some (JVal.vStr "t"), none, [("k", JVal.vNum 1)]⟩ rfl,
         h5 (JVal.vStr "x/y") rfl⟩
